import Mathlib

/-!
Verification of the odecromancy dead-code analyzer.

This file gives a shallow embedding of the analyzer's data model
(`FieldValue`, `MethodValue`, `ModelValue`, the registry of models) and of
the operations the specification's claims are about: score mutation
(`field_used`, `method_used`, `reduce_certainty`), model merging
(`__ior__` in both `odecromancy/models.py` and the legacy
`field_value.py`), the report pass (`core.py report` and
`find_dead_code.py main`), inheritance-recursive lookup
(`_get_field_definition`), downward child propagation
(`method_used_child`), related-path resolution
(`_get_comodel_from_related_path`), and the context-tracking AST walker
(`FieldCollector` of `odecromancy/visitors.py`).

Registries are name-keyed association lists: the Python objects are shared
mutable `ModelValue`s reachable from a dict keyed by model name, so a
name-keyed store with in-place updates is an exact rendering.  Python's
unbounded recursions (which can diverge on cyclic inheritance graphs) are
rendered with an explicit fuel parameter; `none` means the recursion did
not complete within the given fuel, so divergence of the source is
rendered as "`none` for every fuel".
-/

namespace Odec

/-- Association-list lookup, modelling Python `dict.get`. -/
def alGet {α : Type} : List (String × α) → String → Option α
  | [], _ => none
  | (k1, v) :: rest, k => if k1 = k then some v else alGet rest k

/-- Association-list store, modelling Python `dict[k] = v` (insertion
order preserved, new keys appended). -/
def alSet {α : Type} : List (String × α) → String → α → List (String × α)
  | [], k, v => [(k, v)]
  | (k1, v1) :: rest, k, v =>
    if k1 = k then (k1, v) :: rest else (k1, v1) :: alSet rest k v

/-- Membership test, modelling Python `k in dict`. -/
def alHas {α : Type} (l : List (String × α)) (k : String) : Bool :=
  (alGet l k).isSome

/-- Set union on lists of strings, modelling Python `set` union /
`dict.update` key merging (left operand's order kept, new keys appended). -/
def setUnion (a b : List String) : List String :=
  a ++ b.filter (fun x => !(a.contains x))

/-- `FieldValue` (`odecromancy/models.py` lines 6-25): usage score
`unused_percentage` (starts at 100), the attribute bag reduced to the
attributes the analysis reads (`comodel_name`, `related`), and the
definition paths. -/
structure FieldValue where
  score : Int := 100
  comodel : Option String := none
  related : Option String := none
  paths : List String := []
deriving Repr, DecidableEq

/-- `MethodValue` (`odecromancy/models.py` lines 28-57): usage score,
the list of retained bodies (`function_definitions`, rendered as opaque
identifiers), and the definition paths. -/
structure MethodValue where
  score : Int := 100
  bodies : List String := []
  paths : List String := []
deriving Repr, DecidableEq

/-- `ModelValue` (`odecromancy/models.py` lines 60-71): field and method
maps plus name-keyed links to parent (`inherited_models`) and child
(`child_models`) models.  The Python dicts hold shared object references
into the registry; here the links are the key sets and every dereference
goes through the registry. -/
structure ModelValue where
  fields : List (String × FieldValue) := []
  methods : List (String × MethodValue) := []
  parents : List String := []
  children : List String := []
deriving Repr, DecidableEq

/-- The analyzer's `definitions_map`: model name to model value. -/
abbrev Registry : Type := List (String × ModelValue)

/-- The clamped score decrement used by `field_used` / `method_used`
(`odecromancy/models.py` lines 109, 135):
`max(unused_percentage - confidence, 0)`. -/
def scoreUsed (p confidence : Int) : Int :=
  max (p - confidence) 0

/-- `reduce_certainty` (`odecromancy/models.py` lines 14-15 and 42-43):
`self.unused_percentage -= 25`, with no clamp. -/
def scoreReduce (p : Int) : Int :=
  p - 25

/-- One usage-recording call viewed from a single field/method value:
either a clamped decrement by some confidence, or `reduce_certainty`. -/
inductive ScoreOp where
  | used (confidence : Int)
  | reduce
deriving Repr, DecidableEq

/-- Apply one usage-recording call to a score. -/
def applyScoreOp (p : Int) : ScoreOp → Int
  | .used c => scoreUsed p c
  | .reduce => scoreReduce p

/-- Apply a sequence of usage-recording calls to a score. -/
def applyScoreOps (p : Int) (ops : List ScoreOp) : Int :=
  ops.foldl applyScoreOp p

/-- Update one field's score inside a model with the clamped decrement
(the mutation in `field_used`, `odecromancy/models.py` line 109). -/
def updFieldScore (m : ModelValue) (f : String) (confidence : Int) : ModelValue :=
  match alGet m.fields f with
  | none => m
  | some fv => { m with fields := alSet m.fields f { fv with score := scoreUsed fv.score confidence } }

/-- `ModelValue.field_used` (`odecromancy/models.py` lines 106-124): if
the field is declared on the model itself, decrement there; otherwise
scan the direct parents (`inherited_models`) and decrement in every
direct parent that declares the field.  The lookup does not recurse
further. -/
def fieldUsed (reg : Registry) (modelName f : String) (confidence : Int) : Registry :=
  match alGet reg modelName with
  | none => reg
  | some m =>
    if alHas m.fields f then
      alSet reg modelName (updFieldScore m f confidence)
    else
      m.parents.foldl (fun r pname =>
        match alGet r pname with
        | none => r
        | some pm =>
          if alHas pm.fields f then
            alSet r pname (updFieldScore pm f confidence)
          else r) reg

/-- Update one method's score inside a model with the clamped decrement
(the mutation in `method_used`, `odecromancy/models.py` line 135). -/
def updMethodScore (m : ModelValue) (name : String) (confidence : Int) : ModelValue :=
  match alGet m.methods name with
  | none => m
  | some mv => { m with methods := alSet m.methods name { mv with score := scoreUsed mv.score confidence } }

/-- Set one method's score to zero inside a model (the mutation in
`method_used_child`, `odecromancy/models.py` line 129). -/
def setMethodZero (m : ModelValue) (name : String) : ModelValue :=
  match alGet m.methods name with
  | none => m
  | some mv => { m with methods := alSet m.methods name { mv with score := 0 } }

/-- One step of `method_used_child`'s body on one child: `if method_name
in child.methods: child.methods[method_name].unused_percentage = 0`. -/
def zeroMethodAt (reg : Registry) (modelName mth : String) : Registry :=
  match alGet reg modelName with
  | none => reg
  | some m =>
    if alHas m.methods mth then alSet reg modelName (setMethodZero m mth) else reg

/-- The `for child in self.child_models.values()` loop of
`method_used_child`, over the list of child names: zero the child's entry
for the method if declared (`zeroMethodAt`), then recurse into the child
(the abstract `recurse`, instantiated with the fueled recursion below). -/
def mucLoop (mth : String) (recurse : Registry → String → Option Registry) :
    Registry → List String → Option Registry
  | reg, [] => some reg
  | reg, c :: cs =>
    match recurse (zeroMethodAt reg c mth) c with
    | none => none
    | some reg2 => mucLoop mth recurse reg2 cs

/-- `ModelValue.method_used_child` (`odecromancy/models.py` lines
126-130): for every child, zero the child's score for the method if the
child declares it, then recurse into the child.  The Python recursion has
no cycle guard; `none` renders fuel exhaustion (divergence). -/
def methodUsedChild (mth : String) : Nat → Registry → String → Option Registry
  | 0, _, _ => none
  | fuel + 1, reg, modelName =>
    match alGet reg modelName with
    | none => some reg
    | some m => mucLoop mth (fun r c => methodUsedChild mth fuel r c) reg m.children

/-- `ModelValue.method_used` (`odecromancy/models.py` lines 132-151): if
the model declares the method, apply the clamped decrement and propagate
zero scores downward through `method_used_child`; otherwise decrement the
method in every direct parent that declares it (no child propagation in
that branch). -/
def methodUsed (reg : Registry) (modelName mth : String) (confidence : Int) (fuel : Nat) :
    Option Registry :=
  match alGet reg modelName with
  | none => some reg
  | some m =>
    if alHas m.methods mth then
      methodUsedChild mth fuel (alSet reg modelName (updMethodScore m mth confidence)) modelName
    else
      some (m.parents.foldl (fun r pname =>
        match alGet r pname with
        | none => r
        | some pm =>
          if alHas pm.methods mth then
            alSet r pname (updMethodScore pm mth confidence)
          else r) reg)

/-- `FieldValue.__ior__` (`odecromancy/models.py` lines 20-25): copy the
other value's truthy attributes over, union the definition paths, keep
the left score. -/
def fieldIor (a b : FieldValue) : FieldValue :=
  { score := a.score
    comodel := match b.comodel with
      | some c => some c
      | none => a.comodel
    related := match b.related with
      | some r => some r
      | none => a.related
    paths := setUnion a.paths b.paths }

/-- `MethodValue.__ior__` (`odecromancy/models.py` lines 45-51): bodies
concatenate, score takes the minimum, paths union. -/
def methodIor (a b : MethodValue) : MethodValue :=
  { score := min a.score b.score
    bodies := a.bodies ++ b.bodies
    paths := setUnion a.paths b.paths }

/-- The legacy `FieldValue.__ior__` (`field_value.py` lines 19-23): copy
the other value's truthy attributes; `definition_path` is not merged. -/
def fieldIorLegacy (a b : FieldValue) : FieldValue :=
  { score := a.score
    comodel := match b.comodel with
      | some c => some c
      | none => a.comodel
    related := match b.related with
      | some r => some r
      | none => a.related
    paths := a.paths }

/-- The legacy `MethodValue.__ior__` (`field_value.py` lines 39-45):
bodies concatenate, score takes the minimum; `definition_path` is not
merged. -/
def methodIorLegacy (a b : MethodValue) : MethodValue :=
  { score := min a.score b.score
    bodies := a.bodies ++ b.bodies
    paths := a.paths }

/-- `ModelValue.__ior__` (`odecromancy/models.py` lines 73-91): merge
every field of the other model into the matching slot (creating it when
absent), likewise for methods, and union the parent/child key sets
(`dict.update`). -/
def modelIor (a b : ModelValue) : ModelValue :=
  { fields := b.fields.foldl (fun acc p =>
      match alGet acc p.1 with
      | some av => alSet acc p.1 (fieldIor av p.2)
      | none => alSet acc p.1 p.2) a.fields
    methods := b.methods.foldl (fun acc p =>
      match alGet acc p.1 with
      | some av => alSet acc p.1 (methodIor av p.2)
      | none => alSet acc p.1 p.2) a.methods
    parents := setUnion a.parents b.parents
    children := setUnion a.children b.children }

/-- The legacy `ModelValue.__ior__` (`field_value.py` lines 63-79).  Its
method loop tests `if method_name in self.fields` (the fields dict, not
the methods dict): when the name is a merged field it indexes
`self.methods[method_name]` (a `KeyError`, rendered as `.error`, if the
method slot is absent), and otherwise it overwrites the method slot with
the other model's entry instead of merging. -/
def modelIorLegacy (a b : ModelValue) : Except String ModelValue := do
  let mergedFields := b.fields.foldl (fun acc p =>
    match alGet acc p.1 with
    | some av => alSet acc p.1 (fieldIorLegacy av p.2)
    | none => alSet acc p.1 p.2) a.fields
  let mergedMethods ← b.methods.foldlM (fun acc (p : String × MethodValue) =>
    if alHas mergedFields p.1 then
      match alGet acc p.1 with
      | some av => Except.ok (alSet acc p.1 (methodIorLegacy av p.2))
      | none => Except.error "KeyError"
    else
      Except.ok (alSet acc p.1 p.2)) a.methods
  Except.ok
    { fields := mergedFields
      methods := mergedMethods
      parents := setUnion a.parents b.parents
      children := setUnion a.children b.children }

/-- The kinds of values a merge operator can receive; Python is untyped,
so `__ior__` can in principle be handed any of them. -/
inductive MergeOperand where
  | fieldVal (f : FieldValue)
  | methodVal (m : MethodValue)
  | modelVal (m : ModelValue)
deriving Repr

/-- `MethodValue.__ior__` including its type guard
(`odecromancy/models.py` lines 45-47): a non-`MethodValue` operand raises
`TypeError`, rendered as `.error`. -/
def methodIorChecked (a : MethodValue) : MergeOperand → Except String MethodValue
  | .methodVal b => Except.ok (methodIor a b)
  | _ => Except.error "MethodValue can only be IORed with MethodValue"

/-- `ModelValue.__ior__`'s type guard (`odecromancy/models.py` lines
73-75): a non-`ModelValue` operand raises `TypeError`. -/
def modelIorChecked (a : ModelValue) : MergeOperand → Except String ModelValue
  | .modelVal b => Except.ok (modelIor a b)
  | _ => Except.error "Only models can be IORed"

/-- The `try ... except Exception` wrapper of
`OdooAnalyzer._initialize_definitions_map` (`core.py` lines 91-112): any
exception escaping the per-file body is caught and logged, and the run
continues with the registry as it stood at the failure point. -/
def initializeStepCatch (body : Except String Registry) (regAtFailure : Registry) : Registry :=
  match body with
  | .ok reg => reg
  | .error _ => regAtFailure

/-- The unused-fields query of the report pass: entries whose score is
still at least 100, with their definition paths (`core.py` lines 60-64,
`find_dead_code.py` lines 721-725). -/
def unusedFieldsOf (m : ModelValue) : List (String × List String) :=
  m.fields.filterMap (fun p => if p.2.score ≥ 100 then some (p.1, p.2.paths) else none)

/-- The unused-methods query of the report pass (`core.py` lines 65-69,
`find_dead_code.py` lines 726-730). -/
def unusedMethodsOf (m : ModelValue) : List (String × List String) :=
  m.methods.filterMap (fun p => if p.2.score ≥ 100 then some (p.1, p.2.paths) else none)

/-- One reported model: its name and the unused field/method entries
with their definition paths. -/
structure ReportEntry where
  modelName : String
  unusedFields : List (String × List String)
  unusedMethods : List (String × List String)
deriving Repr, DecidableEq

/-- One model's entry in `OdooAnalyzer.report` (`core.py` lines 55-86):
models with no declarations are skipped, and — as written in the source —
a model is also skipped when its unused-field list *or* its
unused-method list is empty (`if not unused_fields or not
unused_methods: continue`). -/
def reportModelCore (name : String) (m : ModelValue) : Option ReportEntry :=
  if m.fields = [] ∧ m.methods = [] then none
  else
    let uf := unusedFieldsOf m
    let um := unusedMethodsOf m
    if uf = [] ∨ um = [] then none
    else some ⟨name, uf, um⟩

/-- One model's entry in `find_dead_code.py main` (lines 718-746): a
model is skipped only when *both* unused lists are empty (`if not
unused_fields and not unused_methods: continue`). -/
def reportModelFindDead (name : String) (m : ModelValue) : Option ReportEntry :=
  if m.fields = [] ∧ m.methods = [] then none
  else
    let uf := unusedFieldsOf m
    let um := unusedMethodsOf m
    if uf = [] ∧ um = [] then none
    else some ⟨name, uf, um⟩

/-- The full report of `core.py report`, over the registry in order. -/
def reportCore (reg : Registry) : List ReportEntry :=
  reg.filterMap (fun p => reportModelCore p.1 p.2)

/-- The full report of `find_dead_code.py main`, over the registry in
order. -/
def reportFindDead (reg : Registry) : List ReportEntry :=
  reg.filterMap (fun p => reportModelFindDead p.1 p.2)

/-- The `for inherited in model.inherited_models: res = recurse; if res:
return res` loop shape shared by the analyzer's inheritance-recursive
lookups: first parent producing a hit wins; a parent whose recursive
lookup ran out of fuel makes the whole lookup out of fuel. -/
def searchParents {α : Type} (g : String → Option (Option α)) :
    List String → Option (Option α)
  | [] => some none
  | p :: ps =>
    match g p with
    | none => none
    | some (some v) => some (some v)
    | some none => searchParents g ps

/-- `OdooAnalyzer._get_field_definition` (`core.py` lines 305-315):
look the field up on the model, then depth-first through its parents.
The outer `Option` is the fuel: `none` means the recursion did not
complete (the Python recursion has no cycle guard), `some none` means it
returned `None`. -/
def getFieldDefinition (reg : Registry) (fieldName : String) :
    Nat → String → Option (Option FieldValue)
  | 0, _ => none
  | fuel + 1, modelName =>
    match alGet reg modelName with
    | none => some none
    | some m =>
      match alGet m.fields fieldName with
      | some fv => some (some fv)
      | none => searchParents (fun p => getFieldDefinition reg fieldName fuel p) m.parents

/-- `self.definitions_map.get(name)` keeping only the name when the model
is registered (the walk below stores model objects; name-keyed, a hit is
the name itself). -/
def regModel (reg : Registry) (name : String) : Option String :=
  if alHas reg name then some name else none

/-- Helper for `splitOnDot`: split a character list at every `.`
accumulating the current segment in reverse. -/
def splitOnDotAux : List Char → List Char → List String
  | [], acc => [String.mk acc.reverse]
  | c :: cs, acc =>
    if c = '.' then String.mk acc.reverse :: splitOnDotAux cs []
    else splitOnDotAux cs (c :: acc)

/-- Python `related_path.split(".")`, written out structurally so that
concrete runs reduce inside the kernel. -/
def splitOnDot (s : String) : List String :=
  splitOnDotAux s.data []

/-- `OdooAnalyzer._get_comodel_from_related_path` (`core.py` lines
329-354), as the loop over the dotted path's segments.  Each iteration
marks the segment as used with confidence 100 via `field_used`, looks the
segment's definition up through `_get_field_definition`, follows
`comodel_name` when present, recurses on the segment's own `related`
path otherwise, and fails (returning `None` with mutations kept) when
neither exists.  The Python recursion on nested `related` paths is
unguarded; fuel exhaustion is `none`. -/
def relatedWalk : Nat → Registry → Option String → List String →
    Option (Registry × Option String)
  | 0, _, _, _ => none
  | _ + 1, reg, cur, [] => some (reg, cur)
  | _ + 1, reg, none, _ :: _ => some (reg, none)
  | fuel + 1, reg, some curName, part :: rest =>
    let reg1 := fieldUsed reg curName part 100
    match getFieldDefinition reg1 part (fuel + 1) curName with
    | none => none
    | some none => some (reg1, none)
    | some (some fd) =>
      match fd.comodel with
      | some cm => relatedWalk fuel reg1 (regModel reg1 cm) rest
      | none =>
        match fd.related with
        | some subPath =>
          match relatedWalk fuel reg1 (some curName) (splitOnDot subPath) with
          | none => none
          | some (reg2, subName) =>
            relatedWalk fuel reg2 (subName.bind (regModel reg2)) rest
        | none => some (reg1, none)

/-- Entry point of `_get_comodel_from_related_path`: split the dotted
path and walk it starting at the given model. -/
def getComodelFromRelatedPath (reg : Registry) (modelName path : String) (fuel : Nat) :
    Option (Registry × Option String) :=
  relatedWalk fuel reg (some modelName) (splitOnDot path)

/-- The per-field step 3 of `OdooAnalyzer._fill_definitions_map`
(`core.py` lines 295-303): for a field carrying a `related` path but no
`comodel_name`, store the walk's result (possibly `None`) as the field's
`comodel_name`. -/
def fixRelatedField (reg : Registry) (modelName fieldName : String) (fuel : Nat) :
    Option Registry :=
  match alGet reg modelName with
  | none => some reg
  | some m =>
    match alGet m.fields fieldName with
    | none => some reg
    | some fv =>
      if fv.related.isSome ∧ fv.comodel = none then
        match getComodelFromRelatedPath reg modelName (fv.related.getD "") fuel with
        | none => none
        | some (reg1, cm) =>
          match alGet reg1 modelName with
          | none => some reg1
          | some m1 =>
            match alGet m1.fields fieldName with
            | none => some reg1
            | some fv1 =>
              some (alSet reg1 modelName
                { m1 with fields := alSet m1.fields fieldName { fv1 with comodel := cm } })
      else some reg

mutual

/-- The fragment of the Python expression AST the `FieldCollector` walker
is exercised on: names, string/other constants, attribute accesses,
subscripts, single-parameter lambdas (`argName` is the first positional
parameter, when any), and calls with positional arguments. -/
inductive PyExpr where
  | Name (id : String)
  | ConstantStr (s : String)
  | ConstantOther
  | Attribute (value : PyExpr) (attrName : String)
  | Subscript (value : PyExpr) (slice : PyExpr)
  | Lambda (argName : Option String) (body : PyExpr)
  | Call (func : PyExpr) (args : PyArgs)

/-- Positional argument lists of a call. -/
inductive PyArgs where
  | nil
  | cons (head : PyExpr) (tail : PyArgs)

end

/-- The `FieldCollector` walker state (`odecromancy/visitors.py` lines
13-28): the `model_context_stack` of (model name, local binding name)
pairs with the top at the end of the list, and the two per-model usage
sets, rendered as duplicate-free lists of (model, name) pairs. -/
structure CollectorState where
  stack : List (String × String)
  usedFields : List (String × String)
  usedMethods : List (String × String)
deriving Repr, DecidableEq

/-- `FieldCollector.__init__`: the stack is the caller-supplied default
context followed by `(current_model, "self")`; both usage sets start
empty. -/
def initCollector (currentModel : String) (defaultContextStack : List (String × String)) :
    CollectorState :=
  { stack := defaultContextStack ++ [(currentModel, "self")]
    usedFields := []
    usedMethods := [] }

/-- `FieldCollector._get_context_for_name` (`visitors.py` lines 62-66):
scan the stack from the top for the binding of a local name. -/
def getContextForName (stack : List (String × String)) (n : String) : Option String :=
  (stack.reverse.find? (fun p => p.2 = n)).map (fun p => p.1)

/-- `FieldCollector._track_field_usage`: add to the used-fields set. -/
def trackField (s : CollectorState) (modelName f : String) : CollectorState :=
  if (modelName, f) ∈ s.usedFields then s
  else { s with usedFields := s.usedFields ++ [(modelName, f)] }

/-- `FieldCollector._track_method_usage`: add to the used-methods set. -/
def trackMethod (s : CollectorState) (modelName mth : String) : CollectorState :=
  if (modelName, mth) ∈ s.usedMethods then s
  else { s with usedMethods := s.usedMethods ++ [(modelName, mth)] }

/-- `model_context_stack.append(...)`. -/
def pushCtx (s : CollectorState) (p : String × String) : CollectorState :=
  { s with stack := s.stack ++ [p] }

/-- `model_context_stack.pop()`. -/
def popCtx (s : CollectorState) : CollectorState :=
  { s with stack := s.stack.dropLast }

/-- `FieldCollector._get_field_info` (`visitors.py` lines 38-48): look
the field up on the model, then depth-first through its parents.  The
fuel `none` (exhaustion, standing for the unguarded Python recursion not
completing) is conflated with a `None` result, as the walker only
branches on truthiness. -/
def getFieldInfo (dm : Registry) : Nat → String → String → Option FieldValue
  | 0, _, _ => none
  | lf + 1, modelName, n =>
    match alGet dm modelName with
    | none => none
    | some mv =>
      match alGet mv.fields n with
      | some fv => some fv
      | none => mv.parents.findSome? (fun p => getFieldInfo dm lf p n)

/-- `FieldCollector._get_method_info` (`visitors.py` lines 50-60),
structured like `_get_field_info`. -/
def getMethodInfo (dm : Registry) : Nat → String → String → Option MethodValue
  | 0, _, _ => none
  | lf + 1, modelName, n =>
    match alGet dm modelName with
    | none => none
    | some mv =>
      match alGet mv.methods n with
      | some fv => some fv
      | none => mv.parents.findSome? (fun p => getMethodInfo dm lf p n)

/-- `FieldCollector._handle_orm_context_change` (`visitors.py` lines
180-194): for `mapped`/`filtered`/`filtered_domain` with a literal
string first argument, record that string as a used field of the current
model; for `mapped`, additionally push a `(comodel, "mapped_call")`
binding when the field is relational.  `search` reaches this helper (see
`visit_Call`) but its recording branch does not include it. -/
def handleOrmContextChange (dm : Registry) (lf : Nat) (methodName : String) (args : PyArgs)
    (modelName : String) (s : CollectorState) : CollectorState :=
  match args with
  | .cons (.ConstantStr fieldNameStr) _ =>
    if methodName = "mapped" ∨ methodName = "filtered" ∨ methodName = "filtered_domain" then
      if methodName = "mapped" then
        match getFieldInfo dm lf modelName fieldNameStr with
        | some fv =>
          match fv.comodel with
          | some nm => pushCtx (trackField s modelName fieldNameStr) (nm, "mapped_call")
          | none => trackField s modelName fieldNameStr
        | none => trackField s modelName fieldNameStr
      else trackField s modelName fieldNameStr
    else s
  | _ => s

/-- The legacy `FieldCollector._handle_orm_context_change`
(`ast_function_visitor.py` lines 199-214): its recording branch requires
`method_name == "mapped"`, so `filtered`, `filtered_domain` and `search`
reach the handler (see `visit_Call`) but record nothing and leave the
state untouched; for `mapped` with a literal string first argument it
records the field and pushes `(comodel, "mapped_call")` when the field is
relational, exactly like the newer handler. -/
def handleOrmContextChangeLegacy (dm : Registry) (lf : Nat) (methodName : String)
    (args : PyArgs) (modelName : String) (s : CollectorState) : CollectorState :=
  match args with
  | .cons (.ConstantStr fieldNameStr) _ =>
    if methodName = "mapped" then
      match getFieldInfo dm lf modelName fieldNameStr with
      | some fv =>
        match fv.comodel with
        | some nm => pushCtx (trackField s modelName fieldNameStr) (nm, "mapped_call")
        | none => trackField s modelName fieldNameStr
      | none => trackField s modelName fieldNameStr
    else s
  | _ => s

/-- The `isinstance(node.value, ast.Name)` branch of
`FieldCollector.visit_Attribute` (`visitors.py` lines 76-95): resolve the
object name through the binding stack; a field hit records the field and,
when relational, pushes `(comodel, "obj.attr")`; otherwise a method hit
records the method. -/
def visitAttributeNameBranch (dm : Registry) (lf : Nat) (objName attrName : String)
    (s : CollectorState) : CollectorState :=
  match getContextForName s.stack objName with
  | none => s
  | some modelName =>
    match getFieldInfo dm lf modelName attrName with
    | some fv =>
      let sA := trackField s modelName attrName
      (match fv.comodel with
       | some cm => pushCtx sA (cm, objName ++ "." ++ attrName)
       | none => sA)
    | none =>
      match getMethodInfo dm lf modelName attrName with
      | some _ => trackMethod s modelName attrName
      | none => s

/-- The part of `visit_Attribute`'s nested branch (`visitors.py` lines
97-125) that runs after the inner `self.visit(node.value)`: re-derive
context from the top of the stack, record a field or method hit, push a
relation binding for a relational field, and retract the transient
binding (`should_pop`) after a non-relational hop on a dotted or
`self.`-rooted chain that is not a bulk-operation marker. -/
def visitAttributeChainStep (dm : Registry) (lf : Nat) (attrName : String)
    (sv : CollectorState) : CollectorState :=
  if sv.stack.length > 1 then
    match sv.stack.getLast? with
    | none => sv
    | some (prevModel, prevObj) =>
      match getFieldInfo dm lf prevModel attrName with
      | some fv =>
        if fv.comodel.isNone &&
            (prevObj.startsWith "self." || prevObj.contains '.') &&
            !(prevObj = "mapped_call" || prevObj = "env_call") then
          popCtx
            (match fv.comodel with
             | some cm => pushCtx (trackField sv prevModel attrName)
                 (cm, prevObj ++ "." ++ attrName)
             | none => trackField sv prevModel attrName)
        else
          (match fv.comodel with
           | some cm => pushCtx (trackField sv prevModel attrName)
               (cm, prevObj ++ "." ++ attrName)
           | none => trackField sv prevModel attrName)
      | none =>
        match getMethodInfo dm lf prevModel attrName with
        | some _ => trackMethod sv prevModel attrName
        | none => sv
  else sv

/-- The `self.env['model']` pattern check of `visit_Subscript`
(`visitors.py` lines 129-139): push `(model, "env_call")` before the
children are visited. -/
def visitSubscriptCheck (v sl : PyExpr) (s : CollectorState) : CollectorState :=
  match v, sl with
  | .Attribute (.Name "self") "env", .ConstantStr mName => pushCtx s (mName, "env_call")
  | _, _ => s

/-- The method-recording and bulk-operation part of `visit_Call`
(`visitors.py` lines 166-172): record a method hit on the top-of-stack
model, then run `_handle_orm_context_change` for the four bulk-operation
names. -/
def visitCallPre (dm : Registry) (lf : Nat) (methodName : String) (args : PyArgs)
    (modelName : String) (sv : CollectorState) : CollectorState :=
  if methodName = "filtered" ∨ methodName = "filtered_domain" ∨
      methodName = "mapped" ∨ methodName = "search" then
    handleOrmContextChange dm lf methodName args modelName
      (if (getMethodInfo dm lf modelName methodName).isSome then
        trackMethod sv modelName methodName
      else sv)
  else
    (if (getMethodInfo dm lf modelName methodName).isSome then
      trackMethod sv modelName methodName
    else sv)

/-- The part of `visit_Call` (`visitors.py` lines 161-177) that runs
after the inner `self.visit(node.func.value)`: the recording and
bulk-operation step (`visitCallPre`), then pop the top binding if it is
one of the transient markers `mapped_call` / `env_call` — including a
marker `_handle_orm_context_change` just pushed. -/
def visitCallHandle (dm : Registry) (lf : Nat) (methodName : String) (args : PyArgs)
    (sv : CollectorState) : CollectorState :=
  match sv.stack.getLast? with
  | none => sv
  | some (modelName, _) =>
    match (visitCallPre dm lf methodName args modelName sv).stack.getLast? with
    | some (_, objName) =>
      if objName = "mapped_call" ∨ objName = "env_call" then
        popCtx (visitCallPre dm lf methodName args modelName sv)
      else visitCallPre dm lf methodName args modelName sv
    | none => visitCallPre dm lf methodName args modelName sv

mutual

/-- `FieldCollector.visit` with the dispatch of `ast.NodeVisitor`: each
constructor runs its `visit_X` handler (`visit_Attribute`,
`visit_Subscript`, `visit_Lambda`, `visit_Call`; names and constants have
no handler), including each handler's trailing `generic_visit`, which
re-visits every child of the node — so `visit_Attribute`'s and
`visit_Call`'s explicitly visited children are visited twice, as in the
source. -/
def visit (dm : Registry) (lf : Nat) : PyExpr → CollectorState → CollectorState
  | .Name _, s => s
  | .ConstantStr _, s => s
  | .ConstantOther, s => s
  | .Attribute v attrName, s =>
    let s1 :=
      match v with
      | .Name objName => visitAttributeNameBranch dm lf objName attrName s
      | .Attribute _ _ => visitAttributeChainStep dm lf attrName (visit dm lf v s)
      | .Call _ _ => visitAttributeChainStep dm lf attrName (visit dm lf v s)
      | _ => s
    visit dm lf v s1
  | .Subscript v sl, s =>
    visit dm lf sl (visit dm lf v (visitSubscriptCheck v sl s))
  | .Lambda argName body, s =>
    (match s.stack.getLast? with
     | none => visit dm lf body s
     | some (modelName, _) =>
       match argName with
       | some arg => popCtx (visit dm lf body (pushCtx s (modelName, arg)))
       | none => visit dm lf body s)
  | .Call f args, s =>
    let s1 :=
      match f with
      | .Attribute fv methodName => visitCallHandle dm lf methodName args (visit dm lf fv s)
      | _ => s
    visitArgs dm lf args (visit dm lf f s1)

/-- `generic_visit`'s traversal of a call's positional arguments. -/
def visitArgs (dm : Registry) (lf : Nat) : PyArgs → CollectorState → CollectorState
  | .nil, s => s
  | .cons e rest, s => visitArgs dm lf rest (visit dm lf e s)

end

/-- Score of a field as stored in the registry (`None` when the model or
field is absent). -/
def fieldScore (reg : Registry) (modelName f : String) : Option Int :=
  (alGet reg modelName).bind (fun m => (alGet m.fields f).map (fun fv => fv.score))

/-- `comodel_name` attribute of a field as stored in the registry. -/
def fieldComodel (reg : Registry) (modelName f : String) : Option (Option String) :=
  (alGet reg modelName).bind (fun m => (alGet m.fields f).map (fun fv => fv.comodel))

/-- Score of a method as stored in the registry. -/
def methodScore (reg : Registry) (modelName mth : String) : Option Int :=
  (alGet reg modelName).bind (fun m => (alGet m.methods mth).map (fun mv => mv.score))

/-- The `child_models` key list of a model (empty when unregistered). -/
def childrenOf (reg : Registry) (modelName : String) : List String :=
  ((alGet reg modelName).map (fun m => m.children)).getD []

/-- Whether a model declares a method of the given name. -/
def methodDeclared (reg : Registry) (modelName mth : String) : Bool :=
  match alGet reg modelName with
  | none => false
  | some m => alHas m.methods mth

/-- Direct parent-to-child edge of the resolved registry graph. -/
def childOf (reg : Registry) (x y : String) : Prop :=
  y ∈ childrenOf reg x

/-- Transitive (one or more child edges) descendants in the registry. -/
inductive ReachesChild (reg : Registry) : String → String → Prop where
  | base {x y : String} (h : childOf reg x y) : ReachesChild reg x y
  | step {x y z : String} (h : childOf reg x y) (t : ReachesChild reg y z) : ReachesChild reg x z

/-- A rank function certifying the child graph is acyclic: every child
edge strictly decreases the rank. -/
def ChildRank (reg : Registry) (rank : String → Nat) : Prop :=
  ∀ x y, childOf reg x y → rank y < rank x

/-- A rank function certifying the parent graph is acyclic: every
registered parent link strictly decreases the rank. -/
def ParentRank (reg : Registry) (rank : String → Nat) : Prop :=
  ∀ x m, alGet reg x = some m → ∀ p ∈ m.parents, rank p < rank x

/-- Relation between a registry and its update by score-writing steps:
child links and declared-method sets are untouched, and a method score
already at zero stays at zero. -/
def ShapeZeroBundle (mth : String) (reg reg' : Registry) : Prop :=
  (∀ y, childrenOf reg' y = childrenOf reg y) ∧
  (∀ y n, methodDeclared reg' y n = methodDeclared reg y n) ∧
  (∀ y, methodScore reg y mth = some 0 → methodScore reg' y mth = some 0)

/-- Example registry for the bulk-operation claims: model `a` has a plain
field `f` and a one-to-many `line_ids` targeting `l`; `l` has relational
`partner_id` targeting `p` and plain `amount`; `p` has plain `email`. -/
def regC1 : Registry :=
  [("a", { fields := [("f", {}), ("line_ids", { comodel := some "l" })] }),
   ("l", { fields := [("partner_id", { comodel := some "p" }), ("amount", {})] }),
   ("p", { fields := [("email", {})] })]

/-- Example model for the report claims: one never-used field, no
methods. -/
def regC3 : Registry :=
  [("a", { fields := [("f", { paths := ["mod/models/a.py:3"] })] })]

/-- First declaration of model `a` for the merge claims: method `m` was
already marked used (score 0). -/
def modelSelfC5 : ModelValue :=
  { methods := [("m", { score := 0, bodies := ["base_def"], paths := ["mod/models/a.py:10"] })] }

/-- Re-declaration of model `a` for the merge claims: method `m` still at
score 100. -/
def modelOtherC5 : ModelValue :=
  { methods := [("m", { score := 100, bodies := ["redecl_def"], paths := ["mod/models/b.py:10"] })] }

/-- Example registry for the related-path claim: `a.x` declares
`related="partner_id.email"` with no explicit comodel, `a.partner_id`
targets `b`, and `b.email` is a plain field. -/
def regC6 : Registry :=
  [("a", { fields := [("x", { related := some "partner_id.email" }),
                      ("partner_id", { comodel := some "b" })] }),
   ("b", { fields := [("email", {})] })]

/-- Depth-two registry for the related-path claim's marking clause:
`child` inherits `mid`, `mid` inherits `grand`, and only `grand` declares
the plain field `deep_rel`. -/
def regC6deep : Registry :=
  [("child", { parents := ["mid"] }),
   ("mid", { parents := ["grand"] }),
   ("grand", { fields := [("deep_rel", {})] })]

/-- Example registry for the lambda claim: `a.partner_id` targets `b`. -/
def regC7 : Registry :=
  [("a", { fields := [("partner_id", { comodel := some "b" })] }),
   ("b", { fields := [("email", {})] })]

/-- Example method/field values for the merge type-guard claim. -/
def methodC8 : MethodValue :=
  { score := 100, bodies := ["some_def"] }

/-- A field value handed to a method merge (the incompatible-kind case). -/
def fieldC8 : FieldValue :=
  {}

/-- Example registry for the child-propagation claim: `m0` with child
`c1`, itself with child `c2`, all three declaring method `do_it`. -/
def regC9 : Registry :=
  [("m0", { methods := [("do_it", { score := 100 })], children := ["c1"] }),
   ("c1", { methods := [("do_it", { score := 100 })], parents := ["m0"], children := ["c2"] }),
   ("c2", { methods := [("do_it", { score := 100 })], parents := ["c1"] })]

/-- Rank function witnessing that `regC9`'s child graph is acyclic. -/
def rankC9 (s : String) : Nat :=
  if s = "m0" then 2 else if s = "c1" then 1 else 0

/-- Example registry for the depth-two inheritance claim: `m` inherits
`p`, `p` inherits `g`, and only `g` declares `deep_field`. -/
def regC10 : Registry :=
  [("m", { fields := [("local_f", {})], parents := ["p"] }),
   ("p", { parents := ["g"] }),
   ("g", { fields := [("deep_field", {})] })]

/-- Cyclic registry for the termination claim: models `a` and `b` name
each other as parents and as children (the child links are what
`_fill_definitions_map` would build from such declarations). -/
def regCyc : Registry :=
  [("a", { parents := ["b"], children := ["b"] }),
   ("b", { parents := ["a"], children := ["a"] })]

/-- A successful association-list lookup is a member of the list. -/
theorem alGet_mem {α : Type} : ∀ {l : List (String × α)} {k : String} {v : α},
    alGet l k = some v → (k, v) ∈ l := by
  intro l
  induction l with
  | nil => intro k v h; simp [alGet] at h
  | cons hd tl ih =>
    intro k v h
    obtain ⟨k1, v1⟩ := hd
    unfold alGet at h
    split at h
    · next heq =>
      injection h with h2
      subst heq h2
      exact List.mem_cons_self _ _
    · exact List.mem_cons_of_mem _ (ih h)

/-- Reading back the key just stored. -/
theorem alGet_alSet_self {α : Type} : ∀ (l : List (String × α)) (k : String) (v : α),
    alGet (alSet l k v) k = some v := by
  intro l
  induction l with
  | nil => intro k v; simp [alSet, alGet]
  | cons hd tl ih =>
    intro k v
    obtain ⟨k1, v1⟩ := hd
    unfold alSet
    split
    · next heq => simp [alGet, heq]
    · next hne => simp [alGet, hne, ih]

/-- Storing one key leaves every other key's lookup unchanged. -/
theorem alGet_alSet_ne {α : Type} : ∀ (l : List (String × α)) (k k' : String) (v : α),
    k' ≠ k → alGet (alSet l k v) k' = alGet l k' := by
  intro l
  induction l with
  | nil => intro k k' v hne; simp [alSet, alGet, Ne.symm hne]
  | cons hd tl ih =>
    intro k k' v hne
    obtain ⟨k1, v1⟩ := hd
    unfold alSet
    split
    · next heq =>
      subst heq
      simp [alGet, Ne.symm hne]
    · next h1 =>
      unfold alGet
      split
      · rfl
      · exact ih k k' v hne

/-- C2, counterexample: the claim includes `reduce_certainty` among the
usage-recording calls and asserts the score always stays within
`[0, 100]`, but `reduce_certainty` subtracts 25 with no clamp: five calls
starting from 100 leave the score at -25, strictly below 0. -/
theorem c2_counterexample :
    applyScoreOps 100
        [ScoreOp.reduce, ScoreOp.reduce, ScoreOp.reduce, ScoreOp.reduce, ScoreOp.reduce] =
      -25 ∧
    applyScoreOps 100
        [ScoreOp.reduce, ScoreOp.reduce, ScoreOp.reduce, ScoreOp.reduce, ScoreOp.reduce] <
      0 := by
  decide

/-- C2, amended: any sequence of `field_used` / `method_used` clamped
decrements with nonnegative confidence keeps the score within `[0, 100]`
and never increases it; each such step is non-increasing on nonnegative
scores, and `reduce_certainty` is also non-increasing — but it is
unclamped, so it alone can drive the score below 0. -/
theorem c2_theorem :
    (∀ (ops : List ScoreOp) (p : Int),
        (∀ op ∈ ops, ∃ c, op = ScoreOp.used c ∧ 0 ≤ c) →
        0 ≤ p → p ≤ 100 → 0 ≤ applyScoreOps p ops ∧ applyScoreOps p ops ≤ p) ∧
    (∀ (p c : Int), 0 ≤ p → 0 ≤ c → applyScoreOp p (ScoreOp.used c) ≤ p) ∧
    (∀ p : Int, applyScoreOp p ScoreOp.reduce ≤ p) := by
  refine ⟨?_, ?_, ?_⟩
  · intro ops
    induction ops with
    | nil => intro p _ h0 _; exact ⟨h0, le_refl p⟩
    | cons op ops ih =>
      intro p hall h0 h100
      obtain ⟨c, hop, hc⟩ := hall op (List.mem_cons_self _ _)
      subst hop
      have hs0 : 0 ≤ scoreUsed p c := le_max_right _ _
      have hsp : scoreUsed p c ≤ p := by
        unfold scoreUsed
        rw [max_def]
        split <;> omega
      have hrec := ih (scoreUsed p c)
        (fun op hop => hall op (List.mem_cons_of_mem _ hop)) hs0 (le_trans hsp h100)
      exact ⟨hrec.1, le_trans hrec.2 hsp⟩
  · intro p c h0 hc
    show scoreUsed p c ≤ p
    unfold scoreUsed
    rw [max_def]
    split <;> omega
  · intro p
    show scoreReduce p ≤ p
    unfold scoreReduce
    omega

/-- C2, witness for the amended claim: two clamped decrements from 100
stay within `[0, 100]`. -/
theorem c2_witness :
    0 ≤ applyScoreOps 100 [ScoreOp.used 30, ScoreOp.used 50] ∧
    applyScoreOps 100 [ScoreOp.used 30, ScoreOp.used 50] ≤ 100 :=
  c2_theorem.1 [ScoreOp.used 30, ScoreOp.used 50] 100
    (by
      intro op hop
      simp only [List.mem_cons, List.not_mem_nil, or_false] at hop
      rcases hop with rfl | rfl
      · exact ⟨30, rfl, by norm_num⟩
      · exact ⟨50, rfl, by norm_num⟩)
    (by norm_num) (by norm_num)

/-- C3: a model with one never-used field and no methods.  `core.py
report` (with its `if not unused_fields or not unused_methods: continue`)
drops the model entirely, so the field never appears, while
`find_dead_code.py main` (with `and`) reports it — the code of `core.py`
contradicts the claim, its sibling implementation, and the spec. -/
theorem c3_theorem :
    reportCore regC3 = [] ∧
    reportFindDead regC3 = [⟨"a", [("f", ["mod/models/a.py:3"])], []⟩] := by
  decide

/-- C5: merging the re-declaration of a model whose method `m` is at
score 100 into the declaration where `m` is at score 0.  The
`odecromancy/models.py` merge behaves as the claim states (score
`min 0 100 = 0`, bodies concatenated), but the legacy
`field_value.py ModelValue.__ior__` tests `method_name in self.fields`
instead of `self.methods`, so it overwrites the slot: the merged score is
the re-declaration's 100 and the original body is dropped. -/
theorem c5_theorem :
    alGet (modelIor modelSelfC5 modelOtherC5).methods "m" =
      some { score := 0, bodies := ["base_def", "redecl_def"],
             paths := ["mod/models/a.py:10", "mod/models/b.py:10"] } ∧
    (modelIorLegacy modelSelfC5 modelOtherC5).toOption.map (fun m => alGet m.methods "m") =
      some (some { score := 100, bodies := ["redecl_def"], paths := ["mod/models/b.py:10"] }) := by
  decide

/-- C6, counterexample: for `x` with `related="partner_id.email"` where
`email` is a plain field, the walk returns `None` (the loop's final
segment has neither a comodel nor a related path), so — contrary to the
claim — `x`'s target-model-name is not set. -/
theorem c6_counterexample :
    (getComodelFromRelatedPath regC6 "a" "partner_id.email" 10).map (fun pr => pr.2) =
      some none := by
  decide

/-- C8, counterexample: an incompatible merge does raise (`TypeError`,
rendered as `.error`), but the declaration pass's per-file
`except Exception` handler (`core.py` lines 111-112) catches it and the
pass returns normally with the registry as of the failure point — the
error does not propagate out of the declaration pass. -/
theorem c8_counterexample :
    (methodIorChecked methodC8 (MergeOperand.fieldVal fieldC8)).isOk = false ∧
    initializeStepCatch
        ((methodIorChecked methodC8 (MergeOperand.fieldVal fieldC8)).map
          (fun _ => ([] : Registry)))
        regC3 = regC3 := by
  decide

/-- C8, amended: merging a field into a method slot or a non-model into a
model raises `TypeError`, but every exception raised inside the per-file
declaration body — this one included — is caught by the pass's blanket
handler, which recovers and continues instead of aborting the run. -/
theorem c8_theorem :
    (∀ a f, methodIorChecked a (MergeOperand.fieldVal f) =
        Except.error "MethodValue can only be IORed with MethodValue") ∧
    (∀ a m, modelIorChecked a (MergeOperand.methodVal m) =
        Except.error "Only models can be IORed") ∧
    (∀ (e : String) (regAtFailure : Registry),
        initializeStepCatch (Except.error e) regAtFailure = regAtFailure) :=
  ⟨fun _ _ => rfl, fun _ _ => rfl, fun _ _ => rfl⟩

/-- Storing a key that is already present preserves every membership
test. -/
theorem alHas_alSet_present {α : Type} (l : List (String × α)) (k n : String) (v : α)
    (h : (alGet l k).isSome) : alHas (alSet l k v) n = alHas l n := by
  by_cases hn : n = k
  · subst hn
    simp only [alHas, alGet_alSet_self]
    exact (Option.isSome_some).symm ▸ h.symm
  · simp only [alHas, alGet_alSet_ne l k n v hn]

/-- `setMethodZero` does not touch the child links. -/
theorem setMethodZero_children (m : ModelValue) (mth : String) :
    (setMethodZero m mth).children = m.children := by
  unfold setMethodZero
  split <;> rfl

/-- `setMethodZero` does not change which methods are declared. -/
theorem setMethodZero_methodKeys (m : ModelValue) (mth n : String) :
    alHas (setMethodZero m mth).methods n = alHas m.methods n := by
  unfold setMethodZero
  cases hq : alGet m.methods mth with
  | none => rfl
  | some mv =>
    simp only
    exact alHas_alSet_present _ _ _ _ (by simp [hq])

/-- `updMethodScore` does not touch the child links. -/
theorem updMethodScore_children (m : ModelValue) (mth : String) (c : Int) :
    (updMethodScore m mth c).children = m.children := by
  unfold updMethodScore
  split <;> rfl

/-- `updMethodScore` does not change which methods are declared. -/
theorem updMethodScore_methodKeys (m : ModelValue) (mth n : String) (c : Int) :
    alHas (updMethodScore m mth c).methods n = alHas m.methods n := by
  unfold updMethodScore
  cases hq : alGet m.methods mth with
  | none => rfl
  | some mv =>
    simp only
    exact alHas_alSet_present _ _ _ _ (by simp [hq])

/-- Replacing a registered model by one with the same child links leaves
`childrenOf` unchanged everywhere. -/
theorem childrenOf_alSet_same (reg : Registry) (k : String) (m m' : ModelValue)
    (hk : alGet reg k = some m) (hch : m'.children = m.children) (y : String) :
    childrenOf (alSet reg k m') y = childrenOf reg y := by
  by_cases hy : y = k
  · subst hy
    unfold childrenOf
    rw [alGet_alSet_self, hk]
    simp [hch]
  · unfold childrenOf
    rw [alGet_alSet_ne _ _ _ _ hy]

/-- Replacing a registered model by one declaring the same methods leaves
`methodDeclared` unchanged everywhere. -/
theorem methodDeclared_alSet_same (reg : Registry) (k : String) (m m' : ModelValue)
    (hk : alGet reg k = some m) (hkeys : ∀ n, alHas m'.methods n = alHas m.methods n)
    (y n : String) :
    methodDeclared (alSet reg k m') y n = methodDeclared reg y n := by
  by_cases hy : y = k
  · subst hy
    unfold methodDeclared
    rw [alGet_alSet_self, hk]
    exact hkeys n
  · unfold methodDeclared
    rw [alGet_alSet_ne _ _ _ _ hy]

/-- Reading the method score of the key just stored. -/
theorem methodScore_alSet_self (reg : Registry) (k : String) (m' : ModelValue) (mth : String) :
    methodScore (alSet reg k m') k mth = (alGet m'.methods mth).map (fun mv => mv.score) := by
  unfold methodScore
  rw [alGet_alSet_self]
  rfl

/-- Storing one model leaves every other model's method scores alone. -/
theorem methodScore_alSet_ne (reg : Registry) (k : String) (m' : ModelValue) (y mth : String)
    (hy : y ≠ k) : methodScore (alSet reg k m') y mth = methodScore reg y mth := by
  unfold methodScore
  rw [alGet_alSet_ne _ _ _ _ hy]

/-- After `setMethodZero` on a declared method, its stored score is 0. -/
theorem setMethodZero_score (m : ModelValue) (mth : String) (h : alHas m.methods mth = true) :
    (alGet (setMethodZero m mth).methods mth).map (fun mv => mv.score) = some 0 := by
  unfold alHas at h
  obtain ⟨mv, hmv⟩ := Option.isSome_iff_exists.mp h
  unfold setMethodZero
  rw [hmv]
  simp [alGet_alSet_self]

/-- The single zeroing step preserves shape and zero scores. -/
theorem zeroMethodAt_bundle (reg : Registry) (c mth : String) :
    ShapeZeroBundle mth reg (zeroMethodAt reg c mth) := by
  cases halGet : alGet reg c with
  | none =>
    simp only [zeroMethodAt, halGet]
    exact ⟨fun _ => rfl, fun _ _ => rfl, fun _ h => h⟩
  | some m =>
    simp only [zeroMethodAt, halGet]
    by_cases hhas : alHas m.methods mth
    · rw [if_pos hhas]
      refine ⟨fun y => childrenOf_alSet_same reg c m _ halGet (setMethodZero_children m mth) y,
              fun y n => methodDeclared_alSet_same reg c m _ halGet
                (fun n2 => setMethodZero_methodKeys m mth n2) y n, ?_⟩
      intro y hy
      by_cases hyc : y = c
      · subst hyc
        rw [methodScore_alSet_self]
        exact setMethodZero_score m mth hhas
      · rw [methodScore_alSet_ne _ _ _ _ _ hyc]
        exact hy
    · rw [if_neg hhas]
      exact ⟨fun _ => rfl, fun _ _ => rfl, fun _ h => h⟩

/-- `methodDeclared` through a known registry entry. -/
theorem methodDeclared_some {reg : Registry} {x : String} {m : ModelValue} (mth : String)
    (h : alGet reg x = some m) : methodDeclared reg x mth = alHas m.methods mth := by
  simp only [methodDeclared, h]

/-- `methodDeclared` of an unregistered model is false. -/
theorem methodDeclared_none {reg : Registry} {x : String} (mth : String)
    (h : alGet reg x = none) : methodDeclared reg x mth = false := by
  simp only [methodDeclared, h]

/-- A declared method is at score 0 right after its zeroing step. -/
theorem zeroMethodAt_sets (reg : Registry) (c mth : String)
    (h : methodDeclared reg c mth = true) :
    methodScore (zeroMethodAt reg c mth) c mth = some 0 := by
  cases halGet : alGet reg c with
  | none => rw [methodDeclared_none mth halGet] at h; exact absurd h (by simp)
  | some m =>
    rw [methodDeclared_some mth halGet] at h
    simp only [zeroMethodAt, halGet]
    rw [if_pos h, methodScore_alSet_self]
    exact setMethodZero_score m mth h

/-- Shape/zero preservation composes. -/
theorem shapeZeroBundle_trans {mth : String} {a b c : Registry}
    (h1 : ShapeZeroBundle mth a b) (h2 : ShapeZeroBundle mth b c) :
    ShapeZeroBundle mth a c := by
  obtain ⟨c1, d1, z1⟩ := h1
  obtain ⟨c2, d2, z2⟩ := h2
  exact ⟨fun y => (c2 y).trans (c1 y), fun y n => (d2 y n).trans (d1 y n),
         fun y hz => z2 y (z1 y hz)⟩

/-- Descendant derivations transfer along registries with pointwise equal
child links. -/
theorem reaches_transfer {reg reg' : Registry}
    (hch : ∀ y, childrenOf reg' y = childrenOf reg y) :
    ∀ {x z : String}, ReachesChild reg x z → ReachesChild reg' x z := by
  intro x z h
  induction h with
  | base h =>
    refine ReachesChild.base ?_
    unfold childOf at *
    rw [hch]
    exact h
  | step h _ ih =>
    refine ReachesChild.step ?_ ih
    unfold childOf at *
    rw [hch]
    exact h

/-- A child-decreasing rank transfers along registries with pointwise
equal child links. -/
theorem childRank_transfer {reg reg' : Registry} {rank : String → Nat}
    (hch : ∀ y, childrenOf reg' y = childrenOf reg y)
    (h : ChildRank reg rank) : ChildRank reg' rank := by
  intro x y hxy
  apply h x y
  unfold childOf at *
  rwa [hch] at hxy

/-- Entry-wise rank decrease (a decidable check on a concrete registry)
implies the semantic `ChildRank`. -/
theorem childRank_of_entries {reg : Registry} {rank : String → Nat}
    (h : ∀ p ∈ reg, ∀ c ∈ p.2.children, rank c < rank p.1) : ChildRank reg rank := by
  intro x y hxy
  unfold childOf childrenOf at hxy
  cases halGet : alGet reg x with
  | none => rw [halGet] at hxy; simp at hxy
  | some m =>
    rw [halGet] at hxy
    simp at hxy
    exact h (x, m) (alGet_mem halGet) y hxy

/-- Entry-wise rank decrease implies the semantic `ParentRank`. -/
theorem parentRank_of_entries {reg : Registry} {rank : String → Nat}
    (h : ∀ p ∈ reg, ∀ q ∈ p.2.parents, rank q < rank p.1) : ParentRank reg rank := by
  intro x m hget p hp
  exact h (x, m) (alGet_mem hget) p hp

/-- If every parent's recursive lookup completed, the parent scan
completes. -/
theorem searchParents_ne_none {α : Type} (g : String → Option (Option α)) :
    ∀ ps : List String, (∀ p ∈ ps, g p ≠ none) → searchParents g ps ≠ none := by
  intro ps
  induction ps with
  | nil => intro _; exact Option.some_ne_none none
  | cons p ps ih =>
    intro h
    unfold searchParents
    cases hg : g p with
    | none => exact absurd hg (h p (List.mem_cons_self _ _))
    | some o =>
      cases o with
      | some v => simp
      | none => exact ih (fun q hq => h q (List.mem_cons_of_mem _ hq))

/-- With an acyclic (rank-decreasing) parent graph,
`_get_field_definition` terminates: any fuel above the model's rank
suffices. -/
theorem getFieldDefinition_total (reg : Registry) (rank : String → Nat)
    (hp : ParentRank reg rank) (f : String) :
    ∀ (fuel : Nat) (x : String), rank x < fuel → getFieldDefinition reg f fuel x ≠ none := by
  intro fuel
  induction fuel with
  | zero => intro x h; omega
  | succ n ih =>
    intro x _
    cases halGet : alGet reg x with
    | none => simp [getFieldDefinition, halGet]
    | some m =>
      cases hf : alGet m.fields f with
      | some fv => simp [getFieldDefinition, halGet, hf]
      | none =>
        simp only [getFieldDefinition, halGet, hf]
        apply searchParents_ne_none
        intro p hp2
        apply ih
        have := hp x m halGet p hp2
        omega

/-- Master lemma for the `for child in child_models` loop of
`method_used_child`: given that the recursive step satisfies the
specification below its rank bound (hypothesis `ih`), one pass over a
child list completes, preserves shape and zero scores, and zeroes every
listed child and each of its descendants that declare the method. -/
theorem mucGoMaster (mth : String) (rank : String → Nat) (n : Nat)
    (recurse : Registry → String → Option Registry)
    (ih : ∀ (reg : Registry) (x : String), ChildRank reg rank → rank x < n →
      ∃ reg', recurse reg x = some reg' ∧
        ShapeZeroBundle mth reg reg' ∧
        (∀ z, ReachesChild reg x z → methodDeclared reg z mth = true →
          methodScore reg' z mth = some 0)) :
    ∀ (cs : List String) (reg : Registry), ChildRank reg rank → (∀ c ∈ cs, rank c < n) →
      ∃ reg', mucLoop mth recurse reg cs = some reg' ∧
        ShapeZeroBundle mth reg reg' ∧
        (∀ c ∈ cs,
          (methodDeclared reg c mth = true → methodScore reg' c mth = some 0) ∧
          (∀ z, ReachesChild reg c z → methodDeclared reg z mth = true →
            methodScore reg' z mth = some 0)) := by
  intro cs
  induction cs with
  | nil =>
    intro reg _ _
    exact ⟨reg, rfl, ⟨fun _ => rfl, fun _ _ => rfl, fun _ h => h⟩, by simp⟩
  | cons c cs ihl =>
    intro reg hcr hranks
    have hsh1 : ShapeZeroBundle mth reg (zeroMethodAt reg c mth) := zeroMethodAt_bundle reg c mth
    have hcr1 : ChildRank (zeroMethodAt reg c mth) rank := childRank_transfer hsh1.1 hcr
    obtain ⟨reg2, h2eq, hsh2, hz2⟩ :=
      ih (zeroMethodAt reg c mth) c hcr1 (hranks c (List.mem_cons_self _ _))
    have hcr2 : ChildRank reg2 rank := childRank_transfer hsh2.1 hcr1
    obtain ⟨reg', h3eq, hsh3, hz3⟩ :=
      ihl reg2 hcr2 (fun c2 hc2 => hranks c2 (List.mem_cons_of_mem _ hc2))
    have hsh12 : ShapeZeroBundle mth reg reg2 := shapeZeroBundle_trans hsh1 hsh2
    refine ⟨reg', ?_, shapeZeroBundle_trans hsh12 hsh3, ?_⟩
    · show mucLoop mth recurse reg (c :: cs) = some reg'
      unfold mucLoop
      rw [h2eq]
      exact h3eq
    · intro c2 hc2
      rcases List.mem_cons.mp hc2 with rfl | hmem
      · constructor
        · intro hdecl
          have h1 : methodScore (zeroMethodAt reg c2 mth) c2 mth = some 0 :=
            zeroMethodAt_sets reg c2 mth hdecl
          exact hsh3.2.2 _ (hsh2.2.2 _ h1)
        · intro z hz hzdecl
          have hz1 : ReachesChild (zeroMethodAt reg c2 mth) c2 z := reaches_transfer hsh1.1 hz
          have hzdecl1 : methodDeclared (zeroMethodAt reg c2 mth) z mth = true := by
            rw [hsh1.2.1]
            exact hzdecl
          exact hsh3.2.2 _ (hz2 z hz1 hzdecl1)
      · have h := hz3 c2 hmem
        constructor
        · intro hdecl
          apply h.1
          rw [hsh2.2.1, hsh1.2.1]
          exact hdecl
        · intro z hz hzdecl
          apply h.2 z
          · exact reaches_transfer (fun y => (hsh2.1 y).trans (hsh1.1 y)) hz
          · rw [hsh2.2.1, hsh1.2.1]
            exact hzdecl

/-- Master lemma for `method_used_child`: with an acyclic
(rank-decreasing) child graph and fuel above the model's rank, the
downward propagation completes, touches only method scores (and only to
set them to 0 for the one method), and leaves every descendant that
declares the method at score exactly 0. -/
theorem mucMaster (mth : String) (rank : String → Nat) :
    ∀ (fuel : Nat) (reg : Registry) (x : String),
      ChildRank reg rank → rank x < fuel →
      ∃ reg', methodUsedChild mth fuel reg x = some reg' ∧
        ShapeZeroBundle mth reg reg' ∧
        (∀ z, ReachesChild reg x z → methodDeclared reg z mth = true →
          methodScore reg' z mth = some 0) := by
  intro fuel
  induction fuel with
  | zero => intro reg x _ h; omega
  | succ n ih =>
    intro reg x hcr _
    cases halGet : alGet reg x with
    | none =>
      refine ⟨reg, ?_, ⟨fun _ => rfl, fun _ _ => rfl, fun _ h => h⟩, ?_⟩
      · show methodUsedChild mth (n + 1) reg x = some reg
        simp [methodUsedChild, halGet]
      · intro z hz _
        exfalso
        have : childrenOf reg x = [] := by
          unfold childrenOf
          rw [halGet]
          rfl
        cases hz with
        | base h => unfold childOf at h; rw [this] at h; simp at h
        | step h _ => unfold childOf at h; rw [this] at h; simp at h
    | some m =>
      have hchildranks : ∀ c ∈ m.children, rank c < n := by
        intro c hc
        have hco : childOf reg x c := by
          unfold childOf childrenOf
          rw [halGet]
          simpa using hc
        have h1 := hcr x c hco
        have h2 : childOf reg x c → True := fun _ => trivial
        omega
      obtain ⟨reg', hgoeq, hbundle, hzero⟩ :=
        mucGoMaster mth rank n (fun r c => methodUsedChild mth n r c) ih m.children reg hcr
          hchildranks
      refine ⟨reg', ?_, hbundle, ?_⟩
      · show methodUsedChild mth (n + 1) reg x = some reg'
        simp only [methodUsedChild, halGet]
        exact hgoeq
      · intro z hz hzdecl
        cases hz with
        | base h =>
          have hc : z ∈ m.children := by
            unfold childOf childrenOf at h
            rw [halGet] at h
            simpa using h
          exact (hzero z hc).1 hzdecl
        | @step _ y _ h t =>
          have hy : y ∈ m.children := by
            unfold childOf childrenOf at h
            rw [halGet] at h
            simpa using h
          exact (hzero y hy).2 z t hzdecl

/-- On the two-model parent cycle, `_get_field_definition` for an
undeclared field never completes, at any fuel, from either model. -/
theorem c4CycFieldAux :
    ∀ fuel, getFieldDefinition regCyc "state" fuel "a" = none ∧
      getFieldDefinition regCyc "state" fuel "b" = none := by
  intro fuel
  induction fuel with
  | zero => exact ⟨rfl, rfl⟩
  | succ n ih =>
    constructor
    · show searchParents (fun p => getFieldDefinition regCyc "state" n p) ["b"] = none
      simp only [searchParents]
      rw [ih.2]
    · show searchParents (fun p => getFieldDefinition regCyc "state" n p) ["a"] = none
      simp only [searchParents]
      rw [ih.1]

/-- On the two-model child cycle, `method_used_child` never completes, at
any fuel, from either model. -/
theorem c4CycMucAux :
    ∀ fuel, methodUsedChild "write_all" fuel regCyc "a" = none ∧
      methodUsedChild "write_all" fuel regCyc "b" = none := by
  intro fuel
  induction fuel with
  | zero => exact ⟨rfl, rfl⟩
  | succ n ih =>
    constructor
    · show mucLoop "write_all" (fun r c => methodUsedChild "write_all" n r c) regCyc ["b"] = none
      simp only [mucLoop]
      rw [show zeroMethodAt regCyc "b" "write_all" = regCyc from rfl, ih.2]
    · show mucLoop "write_all" (fun r c => methodUsedChild "write_all" n r c) regCyc ["a"] = none
      simp only [mucLoop]
      rw [show zeroMethodAt regCyc "a" "write_all" = regCyc from rfl, ih.1]

/-- C4, counterexample: two models declaring each other as parents (and
hence as each other's children after resolution) are a legal finite input,
yet the inherited-field lookup and the downward child propagation both
fail to complete at every fuel bound — the source recursions, which have
no cycle guard, diverge, so the analysis as a whole does not terminate on
this input. -/
theorem c4_counterexample :
    (∀ fuel, getFieldDefinition regCyc "state" fuel "a" = none) ∧
    (∀ fuel, methodUsedChild "write_all" fuel regCyc "a" = none) :=
  ⟨fun fuel => (c4CycFieldAux fuel).1, fun fuel => (c4CycMucAux fuel).1⟩

/-- C4, amended: on inputs whose inheritance graphs are acyclic — any
rank function decreasing along registered parent links, respectively
child links — the recursive lookups and the downward propagation all
terminate once the fuel exceeds the start model's rank. -/
theorem c4_theorem :
    (∀ (reg : Registry) (rank : String → Nat) (f : String), ParentRank reg rank →
       ∀ (fuel : Nat) (x : String), rank x < fuel → getFieldDefinition reg f fuel x ≠ none) ∧
    (∀ (reg : Registry) (rank : String → Nat) (mth : String), ChildRank reg rank →
       ∀ (fuel : Nat) (x : String), rank x < fuel → methodUsedChild mth fuel reg x ≠ none) := by
  constructor
  · intro reg rank f hp fuel x hx
    exact getFieldDefinition_total reg rank hp f fuel x hx
  · intro reg rank mth hc fuel x hx
    obtain ⟨reg', heq, _, _⟩ := mucMaster mth rank fuel reg x hc hx
    simp [heq]

/-- C4, witness: on the acyclic three-model chain both recursions
complete within fuel 3. -/
theorem c4_witness :
    getFieldDefinition regC9 "some_field" 3 "c2" ≠ none ∧
    methodUsedChild "do_it" 3 regC9 "m0" ≠ none := by
  constructor
  · exact c4_theorem.1 regC9 (fun s => if s = "c2" then 2 else if s = "c1" then 1 else 0)
      "some_field" (parentRank_of_entries (by decide)) 3 "c2" (by decide)
  · exact c4_theorem.2 regC9 rankC9 "do_it" (childRank_of_entries (by decide)) 3 "m0" (by decide)

/-- The parent-scan loop of `field_used` does not change the lookup of a
model that is not among the scanned parents. -/
theorem foldParentsFrame (f : String) (conf : Int) (x : String) :
    ∀ (ps : List String) (r : Registry), x ∉ ps →
      alGet (ps.foldl (fun r pname =>
        match alGet r pname with
        | none => r
        | some pm =>
          if alHas pm.fields f then
            alSet r pname (updFieldScore pm f conf)
          else r) r) x = alGet r x := by
  intro ps
  induction ps with
  | nil => intro r _; rfl
  | cons p ps ih =>
    intro r hx
    have hpx : x ≠ p := fun h => hx (h ▸ List.mem_cons_self _ _)
    have hx2 : x ∉ ps := fun h => hx (List.mem_cons_of_mem _ h)
    simp only [List.foldl_cons]
    rw [ih _ hx2]
    cases halGet : alGet r p with
    | none => simp only [halGet]
    | some pm =>
      simp only [halGet]
      split
      · exact alGet_alSet_ne _ _ _ _ hpx
      · rfl

/-- `field_used` on model `M` leaves every model other than `M` and `M`'s
direct parents untouched. -/
theorem fieldUsed_frame (reg : Registry) (M f : String) (conf : Int) (x : String)
    (hne : x ≠ M) (hnp : ∀ m, alGet reg M = some m → x ∉ m.parents) :
    alGet (fieldUsed reg M f conf) x = alGet reg x := by
  cases halGet : alGet reg M with
  | none => simp [fieldUsed, halGet]
  | some m =>
    simp only [fieldUsed, halGet]
    split
    · exact alGet_alSet_ne _ _ _ _ hne
    · exact foldParentsFrame f conf x m.parents reg (hnp m halGet)

/-- The parent-scan loop of `field_used` is the identity when no scanned
parent declares the field. -/
theorem foldParentsNoop (reg : Registry) (f : String) (conf : Int) :
    ∀ ps : List String, (∀ p ∈ ps, ∀ pm, alGet reg p = some pm → alHas pm.fields f = false) →
      ps.foldl (fun r pname =>
        match alGet r pname with
        | none => r
        | some pm =>
          if alHas pm.fields f then
            alSet r pname (updFieldScore pm f conf)
          else r) reg = reg := by
  intro ps
  induction ps with
  | nil => intro _; rfl
  | cons p ps ih =>
    intro h
    simp only [List.foldl_cons]
    have hstep : (match alGet reg p with
        | none => reg
        | some pm =>
          if alHas pm.fields f then
            alSet reg p (updFieldScore pm f conf)
          else reg) = reg := by
      cases halGet : alGet reg p with
      | none => rfl
      | some pm =>
        simp only
        rw [if_neg (by simp [h p (List.mem_cons_self _ _) pm halGet])]
    rw [hstep]
    exact ih (fun q hq pm hget => h q (List.mem_cons_of_mem _ hq) pm hget)

/-- C9: when `method_used(m, c)` hits a model `M` that declares `m`, every
transitive child of `M` declaring `m` ends at score exactly 0, whatever
the confidence `c`; and `field_used` has no such downward propagation —
it cannot touch any model other than `M` and `M`'s direct parents.  The
rank hypothesis certifies the child graph is acyclic (the Python
recursion has no cycle guard) and the fuel exceeds `M`'s rank. -/
theorem c9_theorem (reg : Registry) (rank : String → Nat) (M mth : String) (conf : Int)
    (fuel : Nat) (entry : ModelValue)
    (hrank : ChildRank reg rank) (hfuel : rank M < fuel)
    (hM : alGet reg M = some entry) (hdecl : alHas entry.methods mth = true) :
    (∃ reg', methodUsed reg M mth conf fuel = some reg' ∧
       ∀ C, ReachesChild reg M C → methodDeclared reg C mth = true →
         methodScore reg' C mth = some 0) ∧
    (∀ (reg2 : Registry) (M2 f : String) (c : Int) (x : String),
       x ≠ M2 → (∀ m2, alGet reg2 M2 = some m2 → x ∉ m2.parents) →
       alGet (fieldUsed reg2 M2 f c) x = alGet reg2 x) := by
  constructor
  · have hch1 : ∀ y, childrenOf (alSet reg M (updMethodScore entry mth conf)) y =
        childrenOf reg y :=
      fun y => childrenOf_alSet_same reg M entry _ hM (updMethodScore_children entry mth conf) y
    have hde1 : ∀ y n, methodDeclared (alSet reg M (updMethodScore entry mth conf)) y n =
        methodDeclared reg y n :=
      fun y n => methodDeclared_alSet_same reg M entry _ hM
        (fun n2 => updMethodScore_methodKeys entry mth n2 conf) y n
    have hcr1 : ChildRank (alSet reg M (updMethodScore entry mth conf)) rank :=
      childRank_transfer hch1 hrank
    obtain ⟨reg', heq, _, hzero⟩ :=
      mucMaster mth rank fuel (alSet reg M (updMethodScore entry mth conf)) M hcr1 hfuel
    refine ⟨reg', ?_, ?_⟩
    · show methodUsed reg M mth conf fuel = some reg'
      simp only [methodUsed, hM]
      rw [if_pos hdecl]
      exact heq
    · intro C hC hCdecl
      refine hzero C (reaches_transfer hch1 hC) ?_
      rw [hde1 C mth]
      exact hCdecl
  · intro reg2 M2 f c x hne hnp
    exact fieldUsed_frame reg2 M2 f c x hne hnp

/-- C9, witness: on the three-model chain, `method_used` at confidence 25
on `m0` leaves the grandchild's redeclared method at exactly 0. -/
theorem c9_witness :
    (methodUsed regC9 "m0" "do_it" 25 10).map (fun r => methodScore r "c2" "do_it") =
      some (some 0) := by
  obtain ⟨reg', heq, hz⟩ := (c9_theorem regC9 rankC9 "m0" "do_it" 25 10 _
    (childRank_of_entries (by decide)) (by decide) rfl (by decide)).1
  rw [heq]
  have hreach : ReachesChild regC9 "m0" "c2" :=
    ReachesChild.step (show childOf regC9 "m0" "c1" by unfold childOf; decide)
      (ReachesChild.base (show childOf regC9 "c1" "c2" by unfold childOf; decide))
  simpa using hz "c2" hreach (by decide)

/-- C10: `field_used(f, c)` on model `M` mutates nothing when `f` is
declared neither on `M` nor on any direct parent of `M` — so a field
declared only at inheritance depth 2 keeps its score (here, 100 even at
confidence 100), although the collector's recursive lookup finds it and
attributes the access to `M`. -/
theorem c10_theorem (reg : Registry) (M f : String) (conf : Int) (entry : ModelValue)
    (hM : alGet reg M = some entry)
    (hown : alHas entry.fields f = false)
    (hpar : ∀ p ∈ entry.parents, ∀ pm, alGet reg p = some pm → alHas pm.fields f = false) :
    fieldUsed reg M f conf = reg ∧
    (getFieldInfo regC10 10 "m" "deep_field").isSome = true ∧
    (visit regC10 10 (.Attribute (.Name "self") "deep_field")
        (initCollector "m" [])).usedFields = [("m", "deep_field")] ∧
    fieldScore (fieldUsed regC10 "m" "deep_field" 100) "g" "deep_field" = some 100 := by
  refine ⟨?_, by decide, by decide, by decide⟩
  simp only [fieldUsed, hM]
  rw [if_neg (by simp [hown])]
  exact foldParentsNoop reg f conf entry.parents hpar

/-- C10, witness: the depth-two example itself satisfies the general
frame property's hypotheses, so `field_used` there is the identity. -/
theorem c10_witness :
    fieldUsed regC10 "m" "deep_field" 100 = regC10 ∧
    (getFieldInfo regC10 10 "m" "deep_field").isSome = true := by
  have hpar : ∀ p ∈ ({ fields := [("local_f", {})], parents := ["p"] } : ModelValue).parents,
      ∀ pm, alGet regC10 p = some pm → alHas pm.fields "deep_field" = false := by
    intro p hp pm hget
    have hp2 : p = "p" := by simpa using hp
    subst hp2
    rw [show alGet regC10 "p" = some ({ parents := ["g"] } : ModelValue) from rfl] at hget
    injection hget with h3
    rw [← h3]
    decide
  have h := c10_theorem regC10 "m" "deep_field" 100
    { fields := [("local_f", {})], parents := ["p"] } rfl (by decide) hpar
  exact ⟨h.1, h.2.1⟩

/-- `field_used` is the identity when the field is declared neither on
the model itself nor on any of its direct parents. -/
theorem fieldUsed_noop (reg : Registry) (cur f : String) (conf : Int) (entry : ModelValue)
    (h1 : alGet reg cur = some entry)
    (h2 : alHas entry.fields f = false)
    (h3 : ∀ p ∈ entry.parents, ∀ pm, alGet reg p = some pm → alHas pm.fields f = false) :
    fieldUsed reg cur f conf = reg := by
  simp only [fieldUsed, h1]
  rw [if_neg (by simp [h2])]
  exact foldParentsNoop reg f conf entry.parents h3

/-- C6, amended: the resolution pass walks the delegated path segment by
segment, each step marking the segment via `field_used(segment, 100)` on
the current model — which decrements the segment's field only when it is
declared on that model or on a direct parent, so a segment whose
definition is found only at inheritance depth two or more is left
unmarked even though the ancestor-recursive lookup resolves it (first
conjunct: the walk leaves the registry entirely unchanged there and, for
a plain deep field, yields `None`).  The field's target-model-name is
then set to whatever the walk returns (second conjunct), which is `None`
when resolution fails; in the claim's own example
(`related="partner_id.email"` with `email` plain), `partner_id` and
`email` end with score 0 purely from the resolution pass but the
target-model-name stays unset (third conjunct). -/
theorem c6_theorem :
    (∀ (reg : Registry) (cur part : String) (rest : List String) (fuel : Nat)
       (entry : ModelValue) (fd : FieldValue),
       alGet reg cur = some entry →
       alHas entry.fields part = false →
       (∀ p ∈ entry.parents, ∀ pm, alGet reg p = some pm → alHas pm.fields part = false) →
       getFieldDefinition reg part (fuel + 1) cur = some (some fd) →
       fd.comodel = none → fd.related = none →
       relatedWalk (fuel + 1) reg (some cur) (part :: rest) = some (reg, none)) ∧
    (∀ (reg : Registry) (modelName fieldName : String) (fuel : Nat) (m1 : ModelValue)
       (fv : FieldValue) (reg1 : Registry) (cm : Option String) (m2 : ModelValue)
       (fv2 : FieldValue),
       alGet reg modelName = some m1 →
       alGet m1.fields fieldName = some fv →
       fv.related.isSome = true →
       fv.comodel = none →
       getComodelFromRelatedPath reg modelName (fv.related.getD "") fuel = some (reg1, cm) →
       alGet reg1 modelName = some m2 →
       alGet m2.fields fieldName = some fv2 →
       ∃ reg2, fixRelatedField reg modelName fieldName fuel = some reg2 ∧
         fieldComodel reg2 modelName fieldName = some cm) ∧
    (fixRelatedField regC6 "a" "x" 10).map (fun reg' =>
        (fieldScore reg' "a" "partner_id", fieldScore reg' "b" "email",
         fieldComodel reg' "a" "x")) =
      some (some 0, some 0, some none) := by
  refine ⟨?_, ?_, by decide⟩
  · intro reg cur part rest fuel entry fd h1 h2 h3 h4 h5 h6
    have hnoop : fieldUsed reg cur part 100 = reg :=
      fieldUsed_noop reg cur part 100 entry h1 h2 h3
    simp only [relatedWalk, hnoop, h4, h5, h6]
  · intro reg modelName fieldName fuel m1 fv reg1 cm m2 fv2 hm1 hfv hrel hcom hwalk hm2 hfv2
    simp only [fixRelatedField, hm1, hfv]
    rw [if_pos ⟨hrel, hcom⟩]
    simp only [hwalk, hm2, hfv2]
    refine ⟨_, rfl, ?_⟩
    unfold fieldComodel
    rw [alGet_alSet_self]
    show (alGet (alSet m2.fields fieldName { fv2 with comodel := cm }) fieldName).map
        (fun fvv => fvv.comodel) = some cm
    rw [alGet_alSet_self]
    rfl

/-- C6, witness for the amended claim: on the depth-two chain the walk
resolves `deep_rel` (declared only on the grandparent) without marking
anything — the registry comes back unchanged — and yields `None`. -/
theorem c6_witness :
    relatedWalk 10 regC6deep (some "child") ["deep_rel"] = some (regC6deep, none) := by
  have hpar : ∀ p ∈ ({ parents := ["mid"] } : ModelValue).parents,
      ∀ pm, alGet regC6deep p = some pm → alHas pm.fields "deep_rel" = false := by
    intro p hp pm hget
    have hp2 : p = "mid" := by simpa using hp
    subst hp2
    rw [show alGet regC6deep "mid" = some ({ parents := ["grand"] } : ModelValue) from rfl]
      at hget
    injection hget with h3
    rw [← h3]
    decide
  exact c6_theorem.1 regC6deep "child" "deep_rel" [] 9 { parents := ["mid"] } {}
    rfl (by decide) hpar (by decide) rfl rfl

/-- `trackField` only appends to the used-fields set. -/
theorem trackField_usedFields_mem {s : CollectorState} {p : String × String} (m f : String)
    (h : p ∈ s.usedFields) : p ∈ (trackField s m f).usedFields := by
  unfold trackField
  split
  · exact h
  · exact List.mem_append_left _ h

/-- The tracked pair is in the used-fields set afterwards. -/
theorem trackField_self_mem (s : CollectorState) (m f : String) :
    (m, f) ∈ (trackField s m f).usedFields := by
  unfold trackField
  split
  · next h => exact h
  · exact List.mem_append_right _ (List.mem_singleton.mpr rfl)

/-- `trackMethod` does not touch the used-fields set. -/
theorem trackMethod_usedFields (s : CollectorState) (m mth : String) :
    (trackMethod s m mth).usedFields = s.usedFields := by
  unfold trackMethod
  split <;> rfl

/-- `pushCtx` does not touch the used-fields set. -/
theorem pushCtx_usedFields (s : CollectorState) (p : String × String) :
    (pushCtx s p).usedFields = s.usedFields := rfl

/-- `popCtx` does not touch the used-fields set. -/
theorem popCtx_usedFields (s : CollectorState) :
    (popCtx s).usedFields = s.usedFields := rfl

/-- `pushCtx` appends one binding at the top. -/
theorem pushCtx_stack (s : CollectorState) (p : String × String) :
    (pushCtx s p).stack = s.stack ++ [p] := rfl

/-- `popCtx` drops the top binding. -/
theorem popCtx_stack (s : CollectorState) :
    (popCtx s).stack = s.stack.dropLast := rfl

/-- `_handle_orm_context_change` only appends to the used-fields set. -/
theorem handleOrm_mem (dm : Registry) (lf : Nat) (methodName : String) (args : PyArgs)
    (modelName : String) {s : CollectorState} {p : String × String}
    (h : p ∈ s.usedFields) :
    p ∈ (handleOrmContextChange dm lf methodName args modelName s).usedFields := by
  unfold handleOrmContextChange
  repeat' split
  all_goals
    first
      | exact h
      | exact trackField_usedFields_mem _ _ h
      | (simp only [pushCtx_usedFields]; exact trackField_usedFields_mem _ _ h)

/-- The `Name`-object branch of `visit_Attribute` only appends to the
used-fields set. -/
theorem nameBranch_mem (dm : Registry) (lf : Nat) (objName attrName : String)
    {s : CollectorState} {p : String × String} (h : p ∈ s.usedFields) :
    p ∈ (visitAttributeNameBranch dm lf objName attrName s).usedFields := by
  unfold visitAttributeNameBranch
  repeat' split
  all_goals
    first
      | exact h
      | exact trackField_usedFields_mem _ _ h
      | (simp only [pushCtx_usedFields]; exact trackField_usedFields_mem _ _ h)
      | (simp only [trackMethod_usedFields]; exact h)

/-- The chained-object step of `visit_Attribute` only appends to the
used-fields set. -/
theorem chainStep_mem (dm : Registry) (lf : Nat) (attrName : String)
    {sv : CollectorState} {p : String × String} (h : p ∈ sv.usedFields) :
    p ∈ (visitAttributeChainStep dm lf attrName sv).usedFields := by
  unfold visitAttributeChainStep
  repeat' split
  all_goals try simp only [popCtx_usedFields, pushCtx_usedFields, trackMethod_usedFields]
  all_goals
    first
      | exact h
      | exact trackField_usedFields_mem _ _ h

/-- The `self.env[...]` check of `visit_Subscript` only pushes a binding. -/
theorem subscriptCheck_mem (v sl : PyExpr) {s : CollectorState} {p : String × String}
    (h : p ∈ s.usedFields) : p ∈ (visitSubscriptCheck v sl s).usedFields := by
  unfold visitSubscriptCheck
  repeat' split
  all_goals
    first
      | exact h
      | (simp only [pushCtx_usedFields]; exact h)

/-- The recording step of `visit_Call` only appends to the used-fields
set. -/
theorem visitCallPre_mem (dm : Registry) (lf : Nat) (methodName : String) (args : PyArgs)
    (modelName : String) {sv : CollectorState} {p : String × String}
    (h : p ∈ sv.usedFields) :
    p ∈ (visitCallPre dm lf methodName args modelName sv).usedFields := by
  unfold visitCallPre
  repeat' split
  all_goals
    first
      | exact h
      | (simp only [trackMethod_usedFields]; exact h)
      | exact handleOrm_mem _ _ _ _ _ h
      | exact handleOrm_mem _ _ _ _ _ (by simp only [trackMethod_usedFields]; exact h)

/-- The call-handling step of `visit_Call` only appends to the
used-fields set. -/
theorem callHandle_mem (dm : Registry) (lf : Nat) (methodName : String) (args : PyArgs)
    {sv : CollectorState} {p : String × String} (h : p ∈ sv.usedFields) :
    p ∈ (visitCallHandle dm lf methodName args sv).usedFields := by
  unfold visitCallHandle
  repeat' split
  all_goals
    first
      | exact h
      | exact visitCallPre_mem _ _ _ _ _ h
      | (simp only [popCtx_usedFields]; exact visitCallPre_mem _ _ _ _ _ h)

mutual

/-- The walker only ever adds to the used-fields set: anything recorded
before a visit is still recorded after it. -/
theorem visit_mem (dm : Registry) (lf : Nat) :
    ∀ (e : PyExpr) (s : CollectorState) (p : String × String),
      p ∈ s.usedFields → p ∈ (visit dm lf e s).usedFields
  | .Name _, _, _, h => h
  | .ConstantStr _, _, _, h => h
  | .ConstantOther, _, _, h => h
  | .Attribute (.Name objName) attrName, s, p, h =>
      nameBranch_mem dm lf objName attrName h
  | .Attribute (.Attribute v2 a2) attrName, s, p, h =>
      visit_mem dm lf (.Attribute v2 a2) _ p
        (chainStep_mem dm lf attrName (visit_mem dm lf (.Attribute v2 a2) s p h))
  | .Attribute (.Call f2 args2) attrName, s, p, h =>
      visit_mem dm lf (.Call f2 args2) _ p
        (chainStep_mem dm lf attrName (visit_mem dm lf (.Call f2 args2) s p h))
  | .Attribute (.ConstantStr _) _, _, _, h => h
  | .Attribute .ConstantOther _, _, _, h => h
  | .Attribute (.Subscript v2 sl2) _, s, p, h =>
      visit_mem dm lf (.Subscript v2 sl2) s p h
  | .Attribute (.Lambda an2 b2) _, s, p, h =>
      visit_mem dm lf (.Lambda an2 b2) s p h
  | .Subscript v sl, s, p, h =>
      visit_mem dm lf sl _ p (visit_mem dm lf v _ p (subscriptCheck_mem v sl h))
  | .Lambda argName body, s, p, h => by
      cases hlast : s.stack.getLast? with
      | none =>
        simp only [visit, hlast]
        exact visit_mem dm lf body s p h
      | some t =>
        obtain ⟨mo, ob⟩ := t
        cases argName with
        | none =>
          simp only [visit, hlast]
          exact visit_mem dm lf body s p h
        | some arg =>
          simp only [visit, hlast, popCtx_usedFields]
          exact visit_mem dm lf body _ p (by simp only [pushCtx_usedFields]; exact h)
  | .Call (.Attribute fv mn) args, s, p, h =>
      visitArgs_mem dm lf args _ p
        (visit_mem dm lf (.Attribute fv mn) _ p
          (callHandle_mem dm lf mn args (visit_mem dm lf fv s p h)))
  | .Call (.Name i) args, s, p, h =>
      visitArgs_mem dm lf args _ p (visit_mem dm lf (.Name i) s p h)
  | .Call (.ConstantStr s2) args, s, p, h =>
      visitArgs_mem dm lf args _ p (visit_mem dm lf (.ConstantStr s2) s p h)
  | .Call .ConstantOther args, s, p, h =>
      visitArgs_mem dm lf args _ p (visit_mem dm lf .ConstantOther s p h)
  | .Call (.Subscript v2 sl2) args, s, p, h =>
      visitArgs_mem dm lf args _ p (visit_mem dm lf (.Subscript v2 sl2) s p h)
  | .Call (.Lambda an2 b2) args, s, p, h =>
      visitArgs_mem dm lf args _ p (visit_mem dm lf (.Lambda an2 b2) s p h)
  | .Call (.Call f2 a2) args, s, p, h =>
      visitArgs_mem dm lf args _ p (visit_mem dm lf (.Call f2 a2) s p h)

/-- The argument traversal only ever adds to the used-fields set. -/
theorem visitArgs_mem (dm : Registry) (lf : Nat) :
    ∀ (args : PyArgs) (s : CollectorState) (p : String × String),
      p ∈ s.usedFields → p ∈ (visitArgs dm lf args s).usedFields
  | .nil, _, _, h => h
  | .cons e rest, s, p, h => visitArgs_mem dm lf rest _ p (visit_mem dm lf e s p h)

end

/-- For the three recording bulk operations with a literal first
argument, `_handle_orm_context_change` records the literal as a used
field of the current model. -/
theorem handleOrm_records (dm : Registry) (lf : Nat) (m fn : String) (rest : PyArgs)
    (modelName : String) (s0 : CollectorState)
    (hm : m = "filtered" ∨ m = "filtered_domain" ∨ m = "mapped") :
    (modelName, fn) ∈
      (handleOrmContextChange dm lf m (.cons (.ConstantStr fn) rest) modelName s0).usedFields := by
  show (modelName, fn) ∈
    (if m = "mapped" ∨ m = "filtered" ∨ m = "filtered_domain" then
      if m = "mapped" then
        match getFieldInfo dm lf modelName fn with
        | some fv =>
          match fv.comodel with
          | some nm => pushCtx (trackField s0 modelName fn) (nm, "mapped_call")
          | none => trackField s0 modelName fn
        | none => trackField s0 modelName fn
      else trackField s0 modelName fn
    else s0).usedFields
  rw [if_pos (by tauto)]
  split
  · split
    · split
      · simp only [pushCtx_usedFields]
        exact trackField_self_mem _ _ _
      · exact trackField_self_mem _ _ _
    · exact trackField_self_mem _ _ _
  · exact trackField_self_mem _ _ _

/-- For the three recording bulk operations, the recording step of
`visit_Call` records the literal on the current model whatever else it
does. -/
theorem visitCallPre_records (dm : Registry) (lf : Nat) (m fn : String) (rest : PyArgs)
    (modelName : String) (s0 : CollectorState)
    (hm : m = "filtered" ∨ m = "filtered_domain" ∨ m = "mapped") :
    (modelName, fn) ∈
      (visitCallPre dm lf m (.cons (.ConstantStr fn) rest) modelName s0).usedFields := by
  unfold visitCallPre
  rw [if_pos (by tauto)]
  exact handleOrm_records dm lf m fn rest modelName _ hm

/-- The legacy handler (`ast_function_visitor.py`) records the literal
for `mapped`. -/
theorem handleOrmLegacy_records (dm : Registry) (lf : Nat) (fn : String) (rest : PyArgs)
    (modelName : String) (s0 : CollectorState) :
    (modelName, fn) ∈
      (handleOrmContextChangeLegacy dm lf "mapped" (.cons (.ConstantStr fn) rest)
        modelName s0).usedFields := by
  show (modelName, fn) ∈
    (if "mapped" = "mapped" then
      match getFieldInfo dm lf modelName fn with
      | some fv =>
        match fv.comodel with
        | some nm => pushCtx (trackField s0 modelName fn) (nm, "mapped_call")
        | none => trackField s0 modelName fn
      | none => trackField s0 modelName fn
    else s0).usedFields
  rw [if_pos rfl]
  split
  · split
    · simp only [pushCtx_usedFields]
      exact trackField_self_mem _ _ _
    · exact trackField_self_mem _ _ _
  · exact trackField_self_mem _ _ _

/-- The legacy handler is the identity for every bulk-operation name
other than `mapped`: `filtered`, `filtered_domain` and `search` record
nothing there. -/
theorem handleOrmLegacy_skips (dm : Registry) (lf : Nat) (m2 : String) (args : PyArgs)
    (modelName : String) (s0 : CollectorState)
    (hm2 : m2 = "filtered" ∨ m2 = "filtered_domain" ∨ m2 = "search") :
    handleOrmContextChangeLegacy dm lf m2 args modelName s0 = s0 := by
  have hne : m2 ≠ "mapped" := by rcases hm2 with rfl | rfl | rfl <;> decide
  cases args with
  | nil => rfl
  | cons head tail =>
    cases head with
    | ConstantStr s2 =>
      show (if m2 = "mapped" then
        match getFieldInfo dm lf modelName s2 with
        | some fv =>
          match fv.comodel with
          | some nm => pushCtx (trackField s0 modelName s2) (nm, "mapped_call")
          | none => trackField s0 modelName s2
        | none => trackField s0 modelName s2
      else s0) = s0
      rw [if_neg hne]
    | Name i => rfl
    | ConstantOther => rfl
    | Attribute v a => rfl
    | Subscript v sl => rfl
    | Lambda an b => rfl
    | Call f a2 => rfl

/-- For `mapped` on a relational field, the legacy handler pushes the
`mapped_call` marker exactly like the newer one. -/
theorem handleOrmLegacy_push (dm : Registry) (lf : Nat) (fn : String) (rest : PyArgs)
    (modelName : String) (s0 : CollectorState) (fv : FieldValue) (cm : String)
    (hget : getFieldInfo dm lf modelName fn = some fv) (hcm : fv.comodel = some cm) :
    (handleOrmContextChangeLegacy dm lf "mapped" (.cons (.ConstantStr fn) rest)
        modelName s0).stack =
      (trackField s0 modelName fn).stack ++ [(cm, "mapped_call")] := by
  show (if "mapped" = "mapped" then
      match getFieldInfo dm lf modelName fn with
      | some fv =>
        match fv.comodel with
        | some nm => pushCtx (trackField s0 modelName fn) (nm, "mapped_call")
        | none => trackField s0 modelName fn
      | none => trackField s0 modelName fn
    else s0).stack = (trackField s0 modelName fn).stack ++ [(cm, "mapped_call")]
  rw [if_pos rfl]
  simp only [hget, hcm]
  rfl

/-- C1, counterexample: in the `odecromancy/visitors.py` collector,
`search` with a literal first argument records nothing (the handler's
recording branch covers only `mapped`, `filtered` and `filtered_domain`);
in the legacy `ast_function_visitor.py` collector even `filtered` with a
literal records nothing (its handler requires `mapped`); and after
`self.line_ids.mapped('partner_id')` the chained access `.email` does not
resolve into the related model `p` (the `mapped_call` marker is popped by
the same `visit_Call` that pushed it), so `("p", "email")` is never
recorded. -/
theorem c1_counterexample :
    (visit regC1 10
        (.Call (.Attribute (.Name "self") "search") (.cons (.ConstantStr "f") .nil))
        (initCollector "a" [])).usedFields = [] ∧
    handleOrmContextChangeLegacy regC1 10 "filtered" (.cons (.ConstantStr "f") .nil) "a"
        (initCollector "a" []) = initCollector "a" [] ∧
    (("p", "email") ∉ (visit regC1 10
        (.Attribute (.Call (.Attribute (.Attribute (.Name "self") "line_ids") "mapped")
          (.cons (.ConstantStr "partner_id") .nil)) "email")
        (initCollector "a" [])).usedFields) := by
  decide

/-- C1, amended: for a call `obj.m('f', ...)` with
`m ∈ {filtered, filtered_domain, mapped}` the `odecromancy/visitors.py`
collector records the literal as a used field of the model on top of the
binding stack after visiting `obj`, whereas the legacy
`ast_function_visitor.py` handler records only for `mapped` and is the
identity for `filtered`, `filtered_domain` and `search`; in neither
variant does `search` record anything.  For `mapped` on a relational
field both handlers push `(comodel, "mapped_call")`, but the enclosing
`visit_Call`'s trailing marker check pops it before returning, so it
never persists to chained accesses. -/
theorem c1_theorem (dm : Registry) (lf : Nat) (obj : PyExpr) (m fn : String)
    (rest : PyArgs) (s : CollectorState) (mo ob : String)
    (hm : m = "filtered" ∨ m = "filtered_domain" ∨ m = "mapped")
    (htop : (visit dm lf obj s).stack.getLast? = some (mo, ob)) :
    (mo, fn) ∈
      (visit dm lf (.Call (.Attribute obj m) (.cons (.ConstantStr fn) rest)) s).usedFields ∧
    (∀ (s0 : CollectorState) (modelName : String) (fv : FieldValue) (cm : String),
      getFieldInfo dm lf modelName fn = some fv → fv.comodel = some cm →
      (handleOrmContextChange dm lf "mapped" (.cons (.ConstantStr fn) rest) modelName s0).stack =
        (trackField s0 modelName fn).stack ++ [(cm, "mapped_call")]) ∧
    (∀ (s0 : CollectorState) (modelName : String),
      (modelName, fn) ∈ (handleOrmContextChangeLegacy dm lf "mapped"
        (.cons (.ConstantStr fn) rest) modelName s0).usedFields) ∧
    (∀ (m2 : String) (args2 : PyArgs) (s0 : CollectorState) (modelName : String),
      m2 = "filtered" ∨ m2 = "filtered_domain" ∨ m2 = "search" →
      handleOrmContextChangeLegacy dm lf m2 args2 modelName s0 = s0) ∧
    (∀ (s0 : CollectorState) (modelName : String) (fv : FieldValue) (cm : String),
      getFieldInfo dm lf modelName fn = some fv → fv.comodel = some cm →
      (handleOrmContextChangeLegacy dm lf "mapped" (.cons (.ConstantStr fn) rest)
          modelName s0).stack =
        (trackField s0 modelName fn).stack ++ [(cm, "mapped_call")]) := by
  refine ⟨?_, ?_, ?_, ?_, ?_⟩
  · show (mo, fn) ∈
      (visitArgs dm lf (.cons (.ConstantStr fn) rest)
        (visit dm lf (.Attribute obj m)
          (visitCallHandle dm lf m (.cons (.ConstantStr fn) rest) (visit dm lf obj s)))).usedFields
    apply visitArgs_mem
    apply visit_mem
    simp only [visitCallHandle, htop]
    split
    · split
      · simp only [popCtx_usedFields]
        exact visitCallPre_records dm lf m fn rest mo _ hm
      · exact visitCallPre_records dm lf m fn rest mo _ hm
    · exact visitCallPre_records dm lf m fn rest mo _ hm
  · intro s0 modelName fv cm hget hcm
    show (if "mapped" = "mapped" ∨ "mapped" = "filtered" ∨ "mapped" = "filtered_domain" then
        if "mapped" = "mapped" then
          match getFieldInfo dm lf modelName fn with
          | some fv =>
            match fv.comodel with
            | some nm => pushCtx (trackField s0 modelName fn) (nm, "mapped_call")
            | none => trackField s0 modelName fn
          | none => trackField s0 modelName fn
        else trackField s0 modelName fn
      else s0).stack = (trackField s0 modelName fn).stack ++ [(cm, "mapped_call")]
    rw [if_pos (Or.inl rfl), if_pos rfl]
    simp only [hget, hcm]
    rfl
  · intro s0 modelName
    exact handleOrmLegacy_records dm lf fn rest modelName s0
  · intro m2 args2 s0 modelName hm2
    exact handleOrmLegacy_skips dm lf m2 args2 modelName s0 hm2
  · intro s0 modelName fv cm hget hcm
    exact handleOrmLegacy_push dm lf fn rest modelName s0 fv cm hget hcm

/-- C1, witness for the amended claim: `self.line_ids.mapped('amount')`
records `amount` on the comodel `l` of `line_ids`, the top of the stack
after visiting `self.line_ids`. -/
theorem c1_witness :
    ("l", "amount") ∈ (visit regC1 10
      (.Call (.Attribute (.Attribute (.Name "self") "line_ids") "mapped")
        (.cons (.ConstantStr "amount") .nil))
      (initCollector "a" [])).usedFields :=
  (c1_theorem regC1 10 (.Attribute (.Name "self") "line_ids") "mapped" "amount"
    .nil (initCollector "a" []) "l" "self.line_ids" (by tauto) (by decide)).1

/-- C7, counterexample: visiting `lambda r: r.partner_id` from the stack
`[("a", "self")]` does not restore the stack — the body's relational
attribute access pushes a binding, `visit_Lambda` pops only one, and the
lambda-parameter binding `("a", "r")` survives, changing the model
context of subsequent code. -/
theorem c7_counterexample :
    (visit regC7 10 (.Lambda (some "r") (.Attribute (.Name "r") "partner_id"))
        (initCollector "a" [])).stack ≠ [("a", "self")] := by
  decide

/-- C7, amended: the lambda's first positional parameter is bound to the
pre-lambda top-of-stack model while the body is visited, and exactly one
binding is popped afterwards — so the stack is restored precisely when
visiting the body leaves the stack as it was after the parameter push;
a body that net-pushes bindings (for example a relational attribute
access) leaves extra bindings behind, the parameter binding included. -/
theorem c7_theorem (dm : Registry) (lf : Nat) (arg : String) (body : PyExpr)
    (s : CollectorState) (mo ob : String)
    (htop : s.stack.getLast? = some (mo, ob))
    (hbody : (visit dm lf body (pushCtx s (mo, arg))).stack = (pushCtx s (mo, arg)).stack) :
    (visit dm lf (.Lambda (some arg) body) s).stack = s.stack ∧
    (visit dm lf (.Lambda (some arg) body) s).usedFields =
      (visit dm lf body (pushCtx s (mo, arg))).usedFields := by
  constructor
  · simp only [visit, htop, popCtx_stack]
    rw [hbody, pushCtx_stack]
    exact List.dropLast_concat
  · simp only [visit, htop, popCtx_usedFields]

/-- C7, witness for the amended claim: a lambda whose body visit is
stack-neutral restores the stack exactly. -/
theorem c7_witness :
    (visit regC7 10 (.Lambda (some "r") .ConstantOther) (initCollector "a" [])).stack =
      (initCollector "a" []).stack :=
  (c7_theorem regC7 10 "r" .ConstantOther (initCollector "a" []) "a" "self"
    (by decide) (by decide)).1

end Odec
